import Mathlib

/-!
Shallow embedding of the `MemorySize` crate (src/memory_size.rs).

The crate stores a memory size as a `u64` count of bits and derives its
arithmetic (`Add`, `Sub`, `Sum`, `AddAssign`, `SubAssign`) field-wise with
`derive_more`.  The crate's own test suite (src/tests.rs: `add_panic`,
`subtract_panic`, `add_assign_panic`, `subtract_assign_panic`) asserts that
arithmetic overflow and underflow panic, i.e. the crate is built and tested
with overflow checks enabled; accordingly every u64 operation that can
overflow is embedded as an `Option`-valued function where `none` models the
panic (fault).  Machine integers are embedded as `Nat` with explicit bounds
against `2 ^ 64` where overflow matters.
-/

set_option maxHeartbeats 1000000

/-- Size of the u64 value range: a u64 value `v` satisfies `v < U64_SIZE`. -/
def U64_SIZE : Nat := 2 ^ 64

/-- Constant from the source: `const BITS_IN_BYTE: u64 = 8`. -/
def BITS_IN_BYTE : Nat := 8

/-- Rust `u64::checked_mul`: the product when it fits in u64, `none` on
overflow. -/
def checked_mul (a b : Nat) : Option Nat :=
  if a * b < U64_SIZE then some (a * b) else none

/-- Rust `u64::div_ceil`: quotient of `a` by `b` rounded towards infinity
(`let d = a / b; let r = a % b; if r > 0 { d + 1 } else { d }`); it never
overflows. -/
def div_ceil (a b : Nat) : Nat :=
  if 0 < a % b then a / b + 1 else a / b

/-- The `MemorySize` struct: a wrapper around a memory size in bits, stored
as a u64 in the source. -/
structure MemorySize where
  size_bits : Nat
deriving DecidableEq

namespace MemorySize

/-- `MemorySize::new`: a 0 bits sized object. -/
def new : MemorySize := ⟨0⟩

/-- `MemorySize::from_bytes`: `size_bytes.checked_mul(BITS_IN_BYTE).unwrap()`;
`none` models the panic when the multiplication by 8 overflows u64. -/
def from_bytes (size_bytes : Nat) : Option MemorySize :=
  (checked_mul size_bytes BITS_IN_BYTE).map mk

/-- `MemorySize::from_bits`: stores the bit count verbatim. -/
def from_bits (size_bits : Nat) : MemorySize :=
  ⟨size_bits⟩

/-- `MemorySize::from_bits_ceil`: `bits.div_ceil(BITS_IN_BYTE) * BITS_IN_BYTE`;
the multiplication is plain u64 arithmetic, so `none` models the overflow
panic when the rounded-up value does not fit in u64. -/
def from_bits_ceil (bits : Nat) : Option MemorySize :=
  if div_ceil bits BITS_IN_BYTE * BITS_IN_BYTE < U64_SIZE then
    some ⟨div_ceil bits BITS_IN_BYTE * BITS_IN_BYTE⟩
  else none

/-- `MemorySize::size_bytes`: `assert!(self.size_bits % BITS_IN_BYTE == 0)`
then divide; `none` models the assertion failure on a partial byte. -/
def size_bytes (s : MemorySize) : Option Nat :=
  if s.size_bits % BITS_IN_BYTE = 0 then some (s.size_bits / BITS_IN_BYTE) else none

/-- `MemorySize::size_bits_bytes`: the `(remainder bits, whole bytes)`
decomposition, which never faults. -/
def size_bits_bytes (s : MemorySize) : Nat × Nat :=
  (s.size_bits % BITS_IN_BYTE, s.size_bits / BITS_IN_BYTE)

/-- `MemorySize::align_up`: returns `self` when `self` or `alignment` is
zero, otherwise computes `(self.size_bits + alignment.size_bits - 1)
/ alignment.size_bits * alignment.size_bits`.  The intermediate addition is
plain u64 arithmetic, so `none` models the overflow panic of
`self.size_bits + alignment.size_bits`; the subtraction of 1 cannot
underflow there (both operands are nonzero) and the final multiply rounds a
value down, so neither can fault. -/
def align_up (s alignment : MemorySize) : Option MemorySize :=
  if s.size_bits = 0 then some s
  else if alignment.size_bits = 0 then some s
  else if s.size_bits + alignment.size_bits < U64_SIZE then
    some ⟨(s.size_bits + alignment.size_bits - 1) / alignment.size_bits * alignment.size_bits⟩
  else none

/-- `MemorySize::round_up_byte`: `self.align_up(MemorySize::from_bytes(1))`. -/
def round_up_byte (s : MemorySize) : Option MemorySize :=
  (from_bytes 1).bind fun one => align_up s one

/-- `derive_more::Add` on the single-field struct: field-wise u64 `+`;
`none` models the overflow panic. -/
def add (a b : MemorySize) : Option MemorySize :=
  if a.size_bits + b.size_bits < U64_SIZE then some ⟨a.size_bits + b.size_bits⟩ else none

/-- `derive_more::Sub` on the single-field struct: field-wise u64 `-`;
`none` models the underflow panic when the subtrahend exceeds the minuend. -/
def sub (a b : MemorySize) : Option MemorySize :=
  if b.size_bits ≤ a.size_bits then some ⟨a.size_bits - b.size_bits⟩ else none

/-- `derive_more::AddAssign`: `self.size_bits += rhs.size_bits`, the same
checked u64 addition as `Add`, writing the result back into the receiver. -/
def addAssign (a b : MemorySize) : Option MemorySize :=
  if a.size_bits + b.size_bits < U64_SIZE then some ⟨a.size_bits + b.size_bits⟩ else none

/-- `derive_more::SubAssign`: `self.size_bits -= rhs.size_bits`, the same
checked u64 subtraction as `Sub`, writing the result back into the receiver. -/
def subAssign (a b : MemorySize) : Option MemorySize :=
  if b.size_bits ≤ a.size_bits then some ⟨a.size_bits - b.size_bits⟩ else none

/-- `derive_more::Sum`: folds `Add` over the iterator starting from the
zero value; a fold step after a fault stays faulted, matching the panic
aborting the whole accumulation. -/
def sum (l : List MemorySize) : Option MemorySize :=
  l.foldl (fun acc x => acc.bind fun a => add a x) (some new)

/-- Derived `Ord` on the single-field struct: compares the `size_bits`
fields. -/
def cmp (a b : MemorySize) : Ordering :=
  compare a.size_bits b.size_bits

/-- `Display::fmt` from the source: `write!(f, "{}bit", self.size_bits())`. -/
def displayFmt (s : MemorySize) : String :=
  toString s.size_bits ++ "bit"

end MemorySize

/-- C1 evaluation: `Display::fmt` renders the raw bit count followed by
"bit"; on `from_bytes(1024)`, `from_bytes(10)` and the zero value it yields
"8192bit", "80bit" and "0bit", none of which is the humanized string the
spec and the crate's own `display_format` test expect. -/
theorem displayFmt_not_humanized :
    MemorySize.from_bytes 1024 = some (MemorySize.mk 8192) ∧
    MemorySize.displayFmt (MemorySize.mk 8192) = "8192bit" ∧
    MemorySize.from_bytes 10 = some (MemorySize.mk 80) ∧
    MemorySize.displayFmt (MemorySize.mk 80) = "80bit" ∧
    MemorySize.displayFmt MemorySize.new = "0bit" ∧
    MemorySize.displayFmt (MemorySize.mk 8192) ≠ "1 kB" ∧
    MemorySize.displayFmt (MemorySize.mk 80) ≠ "10 B" ∧
    MemorySize.displayFmt MemorySize.new ≠ "0 B" := by
  refine ⟨by decide, rfl, by decide, rfl, rfl, by decide, by decide, by decide⟩

/-- C2 evaluation: `align_up` computes `self.size_bits + alignment.size_bits
- 1` naively.  For a size of `2 ^ 64 - 2` bits and an alignment of
`2 ^ 63 - 1` bits the size is already an exact multiple of the alignment
(so the rounded-up value is the size itself and is representable in u64),
yet the intermediate addition overflows u64 and the operation faults. -/
theorem align_up_intermediate_overflow :
    (2 ^ 64 - 2) % (2 ^ 63 - 1) = 0 ∧
    2 ^ 64 - 2 < U64_SIZE ∧
    MemorySize.align_up (MemorySize.mk (2 ^ 64 - 2)) (MemorySize.mk (2 ^ 63 - 1)) = none := by
  refine ⟨by decide, by decide, by decide⟩

/-- C3: `align_up` with a zero alignment returns the size unchanged and the
zero size is aligned to every alignment; but `align-up(x, x) = x` fails for
`x = 2 ^ 63` bits, where the intermediate addition `x + x` overflows u64 and
the operation faults instead of returning `x`. -/
theorem align_up_identities :
    (∀ x : MemorySize, MemorySize.align_up x (MemorySize.mk 0) = some x) ∧
    (∀ a : MemorySize, MemorySize.align_up (MemorySize.mk 0) a = some (MemorySize.mk 0)) ∧
    MemorySize.align_up (MemorySize.mk (2 ^ 63)) (MemorySize.mk (2 ^ 63)) = none := by
  refine ⟨?_, ?_, by decide⟩
  · intro x
    by_cases hx : x.size_bits = 0 <;> simp [MemorySize.align_up, hx]
  · intro a
    simp [MemorySize.align_up]

/-- C4: whenever `from_bits_ceil` succeeds, the resulting bit count is the
smallest multiple of 8 that is greater than or equal to the requested bit
count, and in particular is exactly divisible by 8. -/
theorem from_bits_ceil_least (n : Nat) (s : MemorySize)
    (h : MemorySize.from_bits_ceil n = some s) :
    8 ∣ s.size_bits ∧ n ≤ s.size_bits ∧
      ∀ m : Nat, 8 ∣ m → n ≤ m → s.size_bits ≤ m := by
  unfold MemorySize.from_bits_ceil BITS_IN_BYTE at h
  split at h
  · injection h with h'
    subst h'
    refine ⟨dvd_mul_left 8 _, ?_, ?_⟩
    · show n ≤ div_ceil n 8 * 8
      unfold div_ceil
      split <;> omega
    · intro m hm hnm
      obtain ⟨k, rfl⟩ := hm
      show div_ceil n 8 * 8 ≤ 8 * k
      unfold div_ceil
      split <;> omega
  · exact absurd h (by simp)

/-- C4 witness: `from_bits_ceil 9` yields 16 bits, the least multiple of 8
at least 9. -/
theorem from_bits_ceil_least_witness :
    8 ∣ (MemorySize.mk 16).size_bits ∧ 9 ≤ (MemorySize.mk 16).size_bits ∧
      ∀ m : Nat, 8 ∣ m → 9 ≤ m → (MemorySize.mk 16).size_bits ≤ m :=
  from_bits_ceil_least 9 (MemorySize.mk 16) (by decide)

/-- C5: the derived addition faults exactly when the magnitude sum overflows
u64, otherwise it returns the exact sum (never a wrapped value), and the
in-place addition computes the same result. -/
theorem add_checked (a b : MemorySize) :
    (MemorySize.add a b = none ↔ U64_SIZE ≤ a.size_bits + b.size_bits) ∧
    MemorySize.addAssign a b = MemorySize.add a b ∧
    (a.size_bits + b.size_bits < U64_SIZE →
      MemorySize.add a b = some (MemorySize.mk (a.size_bits + b.size_bits))) := by
  refine ⟨?_, rfl, ?_⟩
  · unfold MemorySize.add
    split <;> simp <;> omega
  · intro h
    unfold MemorySize.add
    simp [h]

/-- C5 witness: 40 bits plus 80 bits is 120 bits. -/
theorem add_checked_witness :
    MemorySize.add (MemorySize.mk 40) (MemorySize.mk 80) = some (MemorySize.mk 120) :=
  (add_checked (MemorySize.mk 40) (MemorySize.mk 80)).2.2 (by decide)

/-- C6: the derived subtraction faults exactly when the right operand
exceeds the left, the in-place subtraction computes the same result, and
for `a < b` (with `b` in the u64 range) `b - a` succeeds with a value `v`
such that `v + a = b`. -/
theorem sub_checked (a b : MemorySize) :
    (MemorySize.sub a b = none ↔ a.size_bits < b.size_bits) ∧
    MemorySize.subAssign a b = MemorySize.sub a b ∧
    (a.size_bits < b.size_bits → b.size_bits < U64_SIZE →
      MemorySize.sub b a = some (MemorySize.mk (b.size_bits - a.size_bits)) ∧
      MemorySize.add (MemorySize.mk (b.size_bits - a.size_bits)) a = some b) := by
  refine ⟨?_, rfl, ?_⟩
  · unfold MemorySize.sub
    split <;> simp <;> omega
  · intro hab hb
    constructor
    · unfold MemorySize.sub
      simp [Nat.le_of_lt hab]
    · unfold MemorySize.add
      have hs : b.size_bits - a.size_bits + a.size_bits = b.size_bits :=
        Nat.sub_add_cancel (Nat.le_of_lt hab)
      simp only [hs]
      cases b
      simp [hb]

/-- C6 witness: 80 bits minus 40 bits is 40 bits, and adding the 40 bits
back recovers the 80 bits. -/
theorem sub_checked_witness :
    MemorySize.sub (MemorySize.mk 80) (MemorySize.mk 40) = some (MemorySize.mk 40) ∧
    MemorySize.add (MemorySize.mk 40) (MemorySize.mk 40) = some (MemorySize.mk 80) :=
  (sub_checked (MemorySize.mk 40) (MemorySize.mk 80)).2.2 (by decide) (by decide)

/-- C7: whenever the addition of `a` and `b` succeeds, subtracting `b` from
the sum recovers `a`, and the addition is commutative. -/
theorem add_sub_roundtrip (a b c : MemorySize) (h : MemorySize.add a b = some c) :
    MemorySize.sub c b = some a ∧ MemorySize.add b a = some c := by
  unfold MemorySize.add at h
  split at h
  · injection h with h'
    subst h'
    rename_i hlt
    constructor
    · unfold MemorySize.sub
      cases a
      simp
    · unfold MemorySize.add
      rw [Nat.add_comm b.size_bits a.size_bits]
      simp [hlt]
  · exact absurd h (by simp)

/-- C7 witness: 40 bits plus 80 bits gives 120 bits; subtracting the 80
recovers the 40, and the sum commutes. -/
theorem add_sub_roundtrip_witness :
    MemorySize.sub (MemorySize.mk 120) (MemorySize.mk 80) = some (MemorySize.mk 40) ∧
    MemorySize.add (MemorySize.mk 80) (MemorySize.mk 40) = some (MemorySize.mk 120) :=
  add_sub_roundtrip (MemorySize.mk 40) (MemorySize.mk 80) (MemorySize.mk 120) (by decide)

/-- C8: `from_bytes n` succeeds exactly when `n * 8` fits in u64, in which
case the stored bit count is `n * 8` and the strict byte accessor recovers
`n`; when `n * 8` overflows, `from_bytes` faults. -/
theorem from_bytes_roundtrip (n : Nat) :
    (n * 8 < U64_SIZE →
      MemorySize.from_bytes n = some (MemorySize.mk (n * 8)) ∧
      (MemorySize.mk (n * 8)).size_bits = n * 8 ∧
      MemorySize.size_bytes (MemorySize.mk (n * 8)) = some n) ∧
    (U64_SIZE ≤ n * 8 → MemorySize.from_bytes n = none) := by
  constructor
  · intro h
    refine ⟨?_, rfl, ?_⟩
    · unfold MemorySize.from_bytes checked_mul BITS_IN_BYTE
      simp [h]
    · unfold MemorySize.size_bytes BITS_IN_BYTE
      simp [Nat.mul_mod_left, Nat.mul_div_cancel n (by omega : 0 < 8)]
  · intro h
    unfold MemorySize.from_bytes checked_mul BITS_IN_BYTE
    simp
    omega

/-- C8 witness: 128 bytes is 1024 bits and converts back to 128 bytes, and
`from_bytes (2 ^ 61)` overflows and faults. -/
theorem from_bytes_roundtrip_witness :
    (MemorySize.from_bytes 128 = some (MemorySize.mk 1024) ∧
      (MemorySize.mk 1024).size_bits = 1024 ∧
      MemorySize.size_bytes (MemorySize.mk 1024) = some 128) ∧
    MemorySize.from_bytes (2 ^ 61) = none :=
  ⟨(from_bytes_roundtrip 128).1 (by decide), (from_bytes_roundtrip (2 ^ 61)).2 (by decide)⟩

/-- C9: summation folds the checked addition starting from the zero value:
the empty sum is zero, the sum of `from_bytes 5`, `from_bytes 10` and
`from_bytes 15` is `from_bytes 30`, and extending a sequence by one element
adds that element to the sequence's sum. -/
theorem sum_fold_add :
    MemorySize.sum [] = some MemorySize.new ∧
    (∀ a b c : MemorySize,
      MemorySize.from_bytes 5 = some a → MemorySize.from_bytes 10 = some b →
      MemorySize.from_bytes 15 = some c →
      MemorySize.sum [a, b, c] = MemorySize.from_bytes 30) ∧
    (∀ (l : List MemorySize) (x : MemorySize),
      MemorySize.sum (l ++ [x]) = (MemorySize.sum l).bind fun t => MemorySize.add t x) := by
  refine ⟨rfl, ?_, ?_⟩
  · intro a b c ha hb hc
    have ha' : a = MemorySize.mk 40 := by
      rw [show MemorySize.from_bytes 5 = some (MemorySize.mk 40) from by decide] at ha
      exact (Option.some_inj.mp ha).symm
    have hb' : b = MemorySize.mk 80 := by
      rw [show MemorySize.from_bytes 10 = some (MemorySize.mk 80) from by decide] at hb
      exact (Option.some_inj.mp hb).symm
    have hc' : c = MemorySize.mk 120 := by
      rw [show MemorySize.from_bytes 15 = some (MemorySize.mk 120) from by decide] at hc
      exact (Option.some_inj.mp hc).symm
    subst ha' hb' hc'
    decide
  · intro l x
    unfold MemorySize.sum
    rw [List.foldl_append]
    rfl

/-- C9 witness: the sum of 40, 80 and 120 bits equals `from_bytes 30`. -/
theorem sum_fold_add_witness :
    MemorySize.sum [MemorySize.mk 40, MemorySize.mk 80, MemorySize.mk 120] =
      MemorySize.from_bytes 30 :=
  sum_fold_add.2.1 (MemorySize.mk 40) (MemorySize.mk 80) (MemorySize.mk 120)
    (by decide) (by decide) (by decide)

/-- C10: a `MemorySize` is fully determined by its bit count: `from_bits`
of the accessor is the identity, equality of values coincides with equality
of bit counts, and the derived comparison orders values exactly as their bit
counts. -/
theorem bits_determine_value :
    (∀ s : MemorySize, MemorySize.from_bits s.size_bits = s) ∧
    (∀ a b : MemorySize, a = b ↔ a.size_bits = b.size_bits) ∧
    (∀ a b : MemorySize,
      (MemorySize.cmp a b = Ordering.lt ↔ a.size_bits < b.size_bits) ∧
      (MemorySize.cmp a b = Ordering.eq ↔ a.size_bits = b.size_bits) ∧
      (MemorySize.cmp a b = Ordering.gt ↔ b.size_bits < a.size_bits)) := by
  refine ⟨fun s => rfl, ?_, ?_⟩
  · intro a b
    constructor
    · intro h
      rw [h]
    · intro h
      cases a
      cases b
      simpa using h
  · intro a b
    unfold MemorySize.cmp
    exact ⟨Nat.compare_eq_lt, Nat.compare_eq_eq, Nat.compare_eq_gt⟩
